import Mathlib

/-!
Verification of the device-worker scheduling and batch-pipelining subsystem
of the image background-removal backend.

Each definition is a shallow embedding of a function from the repository
(`storage.py`, `image_processor.py`, `gpu_manager.py`, `workers.py`,
`routes.py`).  Machine integers are modelled as `Nat`; Python floats that
only ever hold exact halves are modelled as `ℚ`; fallible code returns
`Except`/`Option`; the concurrent pipeline is modelled as a labelled
transition system.
-/

namespace ImageRemoveBg

/-! ### storage.py -/

/-- One record of the `processed_images` dict (storage.py, `store_image`). -/
structure ImageRecord where
  data : List Nat
  filename : String
  fmt : String
  mime_type : String
  deriving DecidableEq, Repr

/-- The `processed_images` dict, newest binding first. -/
def Store := List (String × ImageRecord)

/-- storage.py `store_image`: `processed_images[image_id] = {...}` (dict
assignment overwrites; modelled by prepending, with first-match lookup). -/
def store_image (s : Store) (image_id : String) (r : ImageRecord) : Store :=
  (image_id, r) :: s

/-- storage.py `get_image`: `processed_images.get(image_id)`. -/
def get_image (s : Store) (image_id : String) : Option ImageRecord :=
  match s with
  | [] => none
  | (k, r) :: rest => if k = image_id then some r else get_image rest image_id

/-- Replay a sequence of `store_image` calls starting from a store. -/
def applyStores (s : Store) (ops : List (String × ImageRecord)) : Store :=
  match ops with
  | [] => s
  | (k, r) :: rest => applyStores (store_image s k r) rest

/-! ### image_processor.py : optimize_image_size -/

/-- image_processor.py `optimize_image_size` on the dimension pair.
`int(height * (max_dimension / width))` is exact truncation of the product,
i.e. `Nat` division. -/
def optimize_image_size (width height maxDim : Nat) : Nat × Nat :=
  if width ≤ maxDim ∧ height ≤ maxDim then (width, height)
  else if height < width then (maxDim, height * maxDim / width)
  else (width * maxDim / height, maxDim)

/-! ### image_processor.py : the retry loop of process_image_sync -/

/-- Substring test on character lists (used for the fault-signature match). -/
def charListPrefixOf : List Char → List Char → Bool
  | [], _ => true
  | _ :: _, [] => false
  | a :: pa, b :: lb => a == b && charListPrefixOf pa lb

/-- Does `pat` occur as a contiguous substring of `l`? -/
def charListSub (pat : List Char) : List Char → Bool
  | [] => charListPrefixOf pat []
  | c :: rest => charListPrefixOf pat (c :: rest) || charListSub pat rest

/-- Python `pat in s` on strings. -/
def strContains (s pat : String) : Bool :=
  charListSub pat.toList s.toList

/-- Python `pat in s.lower()` (ASCII lowering, character by character). -/
def lowerContains (s pat : String) : Bool :=
  charListSub pat.toList (s.toList.map Char.toLower)

/-- An engine failure: its Python exception class (RuntimeError or not) and
its message text. -/
structure EngineError where
  isRuntimeError : Bool
  msg : String
  deriving DecidableEq, Repr

/-- image_processor.py lines 218–219: the transient-recoverable signature is a
`RuntimeError` whose text matches
`"illegal memory access" in str(e).lower() or "cudaErrorIllegalAddress" in str(e)`. -/
def transientSignature (e : EngineError) : Bool :=
  e.isRuntimeError &&
    (lowerContains e.msg "illegal memory access" ||
     strContains e.msg "cudaErrorIllegalAddress")

/-- Outcome of one dispatch of `withoutbg_instance.remove_background`. -/
inductive AttemptResult where
  | ok (out : Nat)
  | err (e : EngineError)
  deriving DecidableEq, Repr

/-- Observable trace of the retry loop: final result, number of `reset_gpu`
calls, number of dispatches of the engine. -/
structure RetryTrace where
  result : Except String Nat
  resets : Nat
  dispatches : Nat
  deriving Repr

/-- image_processor.py line 192: `max_retries = 2  # Retry once after GPU reset`. -/
def max_retries : Nat := 2

/-- The body of the `for attempt in range(max_retries)` loop of
`process_image_sync` (image_processor.py lines 193–247), with the engine
dispatch abstracted as `outcomes attempt`. -/
def retryFrom (outcomes : Nat → AttemptResult) :
    Nat → Nat → Nat → Nat → RetryTrace
  | _, resets, dispatches, 0 => ⟨.error "loop exhausted", resets, dispatches⟩
  | attempt, resets, dispatches, fuel + 1 =>
    match outcomes attempt with
    | .ok out => ⟨.ok out, resets, dispatches + 1⟩
    | .err e =>
      if e.isRuntimeError then
        if lowerContains e.msg "illegal memory access" ||
           strContains e.msg "cudaErrorIllegalAddress" then
          if attempt < max_retries - 1 then
            retryFrom outcomes (attempt + 1) (resets + 1) (dispatches + 1) fuel
          else
            ⟨.error ("CUDA illegal memory access after GPU reset: " ++ e.msg),
             resets, dispatches + 1⟩
        else ⟨.error e.msg, resets, dispatches + 1⟩
      else ⟨.error ("Error during background removal: " ++ e.msg),
            resets, dispatches + 1⟩

/-- The whole retry loop of `process_image_sync`. -/
def process_image_sync (outcomes : Nat → AttemptResult) : RetryTrace :=
  retryFrom outcomes 0 0 0 max_retries

/-! ### gpu_manager.py : round-robin assignment in get_instance -/

/-- gpu_manager.py lines 103–106: under `_instance_lock`,
`gpu_id = _instance_counter % NUM_GPUS; _instance_counter = (_instance_counter + 1) % NUM_GPUS`.
Returns (assigned gpu, new counter). -/
def roundRobinStep (K counter : Nat) : Nat × Nat :=
  (counter % K, (counter + 1) % K)

/-- Counter value after `m` round-robin acquisitions starting from `c`. -/
def counterAfter (K c : Nat) : Nat → Nat
  | 0 => c
  | m + 1 => (roundRobinStep K (counterAfter K c m)).2

/-- The list of devices assigned by `m` successive `get_instance(None)` calls
starting from counter `c`. -/
def rrAssignments (K c : Nat) : Nat → List Nat
  | 0 => []
  | m + 1 => rrAssignments K c m ++ [(roundRobinStep K (counterAfter K c m)).1]

/-! ### gpu_manager.py : instance table, get_instance / reset_gpu -/

/-- The `_instances` dict restricted to GPU keys.  A binding to `none`
models the Python value `None` stored under the key (key present). -/
structure GpuTable where
  instances : List (Nat × Option Nat)
  nextInstanceId : Nat
  deriving DecidableEq, Repr

/-- Is the key present in the dict (`gpu_id in _instances`)? -/
def tableHasKey (t : List (Nat × Option Nat)) (k : Nat) : Bool :=
  match t with
  | [] => false
  | (k', _) :: rest => k' == k || tableHasKey rest k

/-- First-match lookup (`_instances[gpu_id]`). -/
def tableGet (t : List (Nat × Option Nat)) (k : Nat) : Option Nat :=
  match t with
  | [] => none
  | (k', v) :: rest => if k' = k then v else tableGet rest k

/-- Dict assignment `_instances[gpu_id] = v`. -/
def tableSet (t : List (Nat × Option Nat)) (k : Nat) (v : Option Nat) :
    List (Nat × Option Nat) :=
  (k, v) :: t

/-- gpu_manager.py `get_instance` on the GPU path (`NUM_GPUS > 0`), with the
constructor `WithoutBG.opensource()` succeeding and producing a fresh
instance id.  If the key is present the stored value is returned as is
(lines 111 and 126); only an absent key triggers construction. -/
def get_instance (K : Nat) (t : GpuTable) (gpu_id : Nat) :
    GpuTable × Option Nat :=
  let g := gpu_id % K
  if tableHasKey t.instances g then (t, tableGet t.instances g)
  else
    (⟨tableSet t.instances g (some t.nextInstanceId), t.nextInstanceId + 1⟩,
     some t.nextInstanceId)

/-- gpu_manager.py `reset_gpu` (lines 167–189): if the instance exists it is
deleted and the slot set to `None`; then recreation is attempted.  On
recreation failure the slot is left holding `None`
("Will be recreated on next get_instance call"). -/
def reset_gpu (t : GpuTable) (gpu_id : Nat) (recreateOk : Bool) : GpuTable :=
  if tableHasKey t.instances gpu_id then
    if recreateOk then
      ⟨tableSet t.instances gpu_id (some t.nextInstanceId), t.nextInstanceId + 1⟩
    else
      ⟨tableSet t.instances gpu_id none, t.nextInstanceId⟩
  else t

/-! ### routes.py : chunk failure-rate reset condition -/

/-- routes.py line 303: `if chunk_errors > chunk_end - chunk_start * 0.5:`.
Python precedence multiplies `chunk_start` by `0.5` first. -/
def chunk_reset_condition (chunk_start chunk_end chunk_errors : Nat) : Bool :=
  decide ((chunk_errors : ℚ) > (chunk_end : ℚ) - (chunk_start : ℚ) * (1 / 2))

/-- The condition the surrounding comment (`# More than 50% errors`) and the
spec describe: failures exceed half of the chunk's size. -/
def claimed_reset_condition (chunk_start chunk_end chunk_errors : Nat) : Bool :=
  decide ((chunk_errors : ℚ) > ((chunk_end : ℚ) - (chunk_start : ℚ)) * (1 / 2))

/-! ### workers.py : gpu_worker -/

/-- A task tuple pulled off `_processing_queue` (fields relevant here). -/
structure WTask where
  taskId : Nat
  filename : String
  deriving DecidableEq, Repr

/-- Outcome of `process_image_sync` run in the executor for one task. -/
inductive ProcOutcome where
  | ok (mime fname fmt : String)
  | err (msg : String)
  deriving DecidableEq, Repr

/-- The result object delivered through the task's callback
(workers.py lines 102–110 and 129–134). -/
structure WorkerResult where
  taskId : Nat
  success : Bool
  error : Option String
  imageId : Option String
  filename : String
  deriving DecidableEq, Repr

/-- The per-task body of `gpu_worker` (workers.py lines 83–137): the inner
`try` produces the success object; the `except` produces the failure
object. -/
def gpu_worker_handle (t : WTask) : ProcOutcome → WorkerResult
  | .ok _ fname _ =>
    { taskId := t.taskId, success := true, error := none,
      imageId := some ("img_" ++ toString t.taskId), filename := fname }
  | .err m =>
    { taskId := t.taskId, success := false,
      error := some ("Error processing image " ++ toString t.taskId ++
        " (" ++ t.filename ++ "): " ++ m),
      imageId := none, filename := t.filename }

/-- The `gpu_worker` loop (workers.py lines 73–141) over a modelled queue
prefix: dequeues until the shutdown sentinel `None`, emitting the callback
invocations in order. -/
def gpu_worker (queue : List (Option WTask)) (proc : WTask → ProcOutcome) :
    List WorkerResult :=
  match queue with
  | [] => []
  | none :: _ => []
  | some t :: rest => gpu_worker_handle t (proc t) :: gpu_worker rest proc

/-- The tasks the worker dequeues before the shutdown sentinel. -/
def dequeuedTasks (queue : List (Option WTask)) : List WTask :=
  match queue with
  | [] => []
  | none :: _ => []
  | some t :: rest => t :: dequeuedTasks rest

/-! ### routes.py : websocket batch-completion tracking

`websocket_process_images` keeps `batch_completion_trackers` (a dict
`batch_id -> {total, completed, results}`) and, on each `batch_end`, defines
`batch_result_callback` closing over the enclosing function's local variables
`batch_id` and `batch_tracker`.  In Python these closures capture the
variables (cells), not their values: every callback created during the
connection reads whatever `batch_id` / `batch_tracker` hold when it runs.
The model keeps those two cells explicitly. -/

/-- One entry of `batch_completion_trackers`. -/
structure BatchTracker where
  total : Nat
  completed : Nat
  results : List Bool
  deriving DecidableEq, Repr

/-- The events relevant to completion tracking, in the order the handler's
event loop observes them: `batch_start` (with the announced size) and
`batch_end` (with the number of uploaded images) from the socket, and the
arrival of one per-job result (its success flag) via
`batch_result_callback`. -/
inductive WsEvent where
  | batch_start (announced : Nat)
  | batch_end (imageCount : Nat)
  | result (success : Bool)
  deriving DecidableEq, Repr

/-- The handler's local state: the tracker dict, `batch_counter`, and the two
closure cells `batch_id` (rebound at `batch_start` and `batch_end`) and
`batch_tracker` (rebound at `batch_end` only). -/
structure WsState where
  trackers : List (Nat × BatchTracker)
  batchCounter : Nat
  cellBatchId : Option Nat
  cellTracker : Option Nat
  deriving DecidableEq, Repr

/-- The `batch_complete` summary message (routes.py lines 515–521). -/
structure BatchCompleteMsg where
  batchId : Nat
  total : Nat
  successful : Nat
  failed : Nat
  deriving DecidableEq, Repr

/-- Tracker-dict lookup. -/
def wsGetTracker (t : List (Nat × BatchTracker)) (k : Nat) : Option BatchTracker :=
  match t with
  | [] => none
  | (k', v) :: rest => if k' = k then some v else wsGetTracker rest k

/-- Tracker-dict assignment. -/
def wsSetTracker (t : List (Nat × BatchTracker)) (k : Nat) (v : BatchTracker) :
    List (Nat × BatchTracker) :=
  (k, v) :: t

/-- One step of the handler.  `batch_start` registers a tracker and rebinds
`batch_id` (routes.py lines 443–459); `batch_end` sets the tracker's total to
the uploaded image count and rebinds both cells (lines 488–497); a result
runs `batch_result_callback` (lines 499–522): it increments and appends on
whichever tracker the `batch_tracker` cell currently names, and emits
`batch_complete` under the `batch_id` the cell currently names once
`completed >= total`. -/
def wsStep (s : WsState) : WsEvent → WsState × List BatchCompleteMsg
  | .batch_start announced =>
    ({ trackers := wsSetTracker s.trackers s.batchCounter ⟨announced, 0, []⟩,
       batchCounter := s.batchCounter + 1,
       cellBatchId := some s.batchCounter,
       cellTracker := s.cellTracker }, [])
  | .batch_end imageCount =>
    let bid := s.batchCounter - 1
    match wsGetTracker s.trackers bid with
    | none => (s, [])
    | some tr =>
      ({ trackers := wsSetTracker s.trackers bid { tr with total := imageCount },
         batchCounter := s.batchCounter,
         cellBatchId := some bid,
         cellTracker := some bid }, [])
  | .result r =>
    match s.cellTracker, s.cellBatchId with
    | some trBid, some msgBid =>
      match wsGetTracker s.trackers trBid with
      | none => (s, [])
      | some tr =>
        let tr' : BatchTracker :=
          { tr with completed := tr.completed + 1, results := tr.results ++ [r] }
        let s' := { s with trackers := wsSetTracker s.trackers trBid tr' }
        if tr'.total ≤ tr'.completed then
          (s', [⟨msgBid, tr'.total,
                tr'.results.countP (fun b => b),
                tr'.results.countP (fun b => !b)⟩])
        else (s', [])
    | _, _ => (s, [])

/-- Run the handler over an event sequence, collecting every
`batch_complete` message it emits. -/
def wsRun (events : List WsEvent) : WsState × List BatchCompleteMsg :=
  events.foldl
    (fun acc e =>
      let (s', msgs) := wsStep acc.1 e
      (s', acc.2 ++ msgs))
    (⟨[], 0, none, none⟩, [])

/-! ### workers.py + routes.py : the batch pipeline as a transition system

The concurrent system is modelled as a labelled-free transition relation over
one state:  the websocket handler may enqueue a batch at any time
(`submit`, routes.py lines 525–541); `batch_processor` (workers.py lines
149–213) dequeues one batch, fans its jobs onto `_processing_queue`, and
blocks until the batch-completion count reaches the total; one `gpu_worker`
per GPU (workers.py lines 71–145) dequeues jobs and, when a job finishes,
delivers its terminal result (incrementing the batch's completion count via
`individual_callback`, lines 173–180); the single-upload endpoint
(routes.py `/api/upload`, line 96) dispatches `process_image_sync` with
`gpu_id=None`, which round-robins onto a device with no per-device permit. -/

/-- One job fanned out of a batch: which batch it belongs to and its index. -/
structure PJob where
  batch : Nat
  idx : Nat
  deriving DecidableEq, Repr

/-- The batch processor: idle between batches, fanning jobs onto the
processing queue, or blocked on the batch-completion event. -/
inductive CoordState where
  | idle
  | fanning (bid : Nat) (pending : List PJob) (total : Nat)
  | waiting (bid : Nat) (total : Nat)
  deriving DecidableEq, Repr

/-- A `gpu_worker` coroutine: blocked on the queue, or holding one job
in its engine dispatch. -/
inductive WorkerState where
  | waiting
  | busy (j : PJob)
  deriving DecidableEq, Repr

/-- The jobs of batch `bid` of size `n`. -/
def jobsOf (bid n : Nat) : List PJob :=
  (List.range n).map (fun i => ⟨bid, i⟩)

/-- Global state of the pipeline. -/
structure PState where
  batchQueue : List (Nat × Nat)
  nextBatchId : Nat
  coord : CoordState
  procQueue : List PJob
  workers : List WorkerState
  counts : List (Nat × Nat)
  totals : List (Nat × Nat)
  finished : List Nat
  dequeued : List Nat
  endpointCalls : List Nat
  rr : Nat
  deriving DecidableEq, Repr

/-- Association lookup with default 0 (completion counts / totals). -/
def alookD (l : List (Nat × Nat)) (k : Nat) : Nat :=
  match l with
  | [] => 0
  | (k', v) :: rest => if k' = k then v else alookD rest k

/-- Increment the first binding of `k` (the `batch_completion["count"] += 1`
of `individual_callback`). -/
def abump (l : List (Nat × Nat)) (k : Nat) : List (Nat × Nat) :=
  match l with
  | [] => []
  | (k', v) :: rest =>
    if k' = k then (k', v + 1) :: rest else (k', v) :: abump rest k

/-- Which batch the coordinator currently owns. -/
def currentBid : CoordState → Option Nat
  | .idle => none
  | .fanning b _ _ => some b
  | .waiting b _ => some b

/-- Initial state with `K` idle workers (start_workers, workers.py 216–229). -/
def initPState (K : Nat) : PState :=
  ⟨[], 0, .idle, [], List.replicate K .waiting, [], [], [], [], [], 0⟩

/-- The successor of `s` after the websocket handler enqueues a batch of `n`
images (`await batch_queue.put(...)`, acknowledged immediately with
`batch_queued`). -/
def submitSucc (s : PState) (n : Nat) : PState :=
  { s with batchQueue := s.batchQueue ++ [(s.nextBatchId, n)],
           nextBatchId := s.nextBatchId + 1 }

/-- Interleaving steps of the pipeline. -/
inductive PStep (K : Nat) : PState → PState → Prop
  /-- The handler enqueues a batch; never blocked on the coordinator. -/
  | submit (s : PState) (n : Nat) : PStep K s (submitSucc s n)
  /-- `batch_processor` dequeues the head batch (workers.py line 156)
  and builds its completion tracker (lines 170–171). -/
  | coordDequeue (s : PState) (bid n : Nat) (rest : List (Nat × Nat))
      (hq : s.batchQueue = (bid, n) :: rest) (hc : s.coord = .idle) :
      PStep K s
        { s with batchQueue := rest,
                 coord := .fanning bid (jobsOf bid n) n,
                 counts := (bid, 0) :: s.counts,
                 totals := (bid, n) :: s.totals,
                 dequeued := s.dequeued ++ [bid] }
  /-- The coordinator puts one job on `_processing_queue` (lines 183–192). -/
  | coordEnqueue (s : PState) (bid : Nat) (j : PJob) (js : List PJob) (total : Nat)
      (hc : s.coord = .fanning bid (j :: js) total) :
      PStep K s
        { s with coord := .fanning bid js total,
                 procQueue := s.procQueue ++ [j] }
  /-- All jobs fanned out; the coordinator starts waiting on the
  completion event (line 198). -/
  | coordFanDone (s : PState) (bid total : Nat)
      (hc : s.coord = .fanning bid [] total) :
      PStep K s { s with coord := .waiting bid total }
  /-- The completion event fired (`count >= total`, lines 179–180); the
  coordinator advances to the next batch. -/
  | coordDone (s : PState) (bid total : Nat)
      (hc : s.coord = .waiting bid total)
      (hcount : alookD s.counts bid = total) :
      PStep K s { s with coord := .idle, finished := s.finished ++ [bid] }
  /-- Worker `g` dequeues the head job and begins its engine dispatch
  (workers.py lines 76–94). -/
  | workerBegin (s : PState) (g : Nat) (j : PJob) (rest : List PJob)
      (hw : s.workers.get? g = some .waiting)
      (hq : s.procQueue = j :: rest) :
      PStep K s { s with workers := s.workers.set g (.busy j),
                         procQueue := rest }
  /-- Worker `g` finishes its dispatch and delivers the job's terminal
  result, bumping the batch's completion count (lines 100–141, 173–180). -/
  | workerEnd (s : PState) (g : Nat) (j : PJob)
      (hw : s.workers.get? g = some (.busy j)) :
      PStep K s { s with workers := s.workers.set g .waiting,
                         counts := abump s.counts j.batch }
  /-- A `/api/upload` request dispatches `process_image_sync` with
  `gpu_id=None`: `get_instance` round-robins it onto a device, with no
  semaphore held (routes.py lines 86–97, gpu_manager.py lines 103–106). -/
  | endpointBegin (s : PState) :
      PStep K s { s with endpointCalls := s.endpointCalls ++ [s.rr % K],
                         rr := (s.rr + 1) % K }
  /-- A `/api/upload` engine call returns. -/
  | endpointEnd (s : PState) (g : Nat) (pre post : List Nat)
      (h : s.endpointCalls = pre ++ g :: post) :
      PStep K s { s with endpointCalls := pre ++ post }

/-- States reachable from startup. -/
inductive PReach (K : Nat) : PState → Prop
  | base : PReach K (initPState K)
  | step {s s' : PState} : PReach K s → PStep K s s' → PReach K s'

/-- Is a worker slot mid-dispatch? -/
def isBusy : WorkerState → Bool
  | .busy _ => true
  | .waiting => false

/-- Number of workers currently inside an engine dispatch. -/
def busyCount (ws : List WorkerState) : Nat :=
  ws.countP isBusy

/-- Does worker `g` currently hold an engine dispatch? -/
def workerActive (ws : List WorkerState) (g : Nat) : Nat :=
  match ws.get? g with
  | some (.busy _) => 1
  | _ => 0

/-- Number of engine dispatch windows currently open on device `g`,
across the worker path and the single-upload endpoint path. -/
def activeOn (s : PState) (g : Nat) : Nat :=
  workerActive s.workers g + s.endpointCalls.count g

/-- The per-batch counting invariant: the completion count of the
coordinator's current batch plus its outstanding jobs (still to fan out, on
the queue, or mid-dispatch) equals its total. -/
def CountEq (s : PState) : Prop :=
  match s.coord with
  | .idle => True
  | .fanning bid js total =>
      alookD s.counts bid + s.procQueue.length + busyCount s.workers + js.length = total
      ∧ alookD s.totals bid = total
  | .waiting bid total =>
      alookD s.counts bid + s.procQueue.length + busyCount s.workers = total
      ∧ alookD s.totals bid = total

/-- Inductive invariant of the pipeline. -/
structure PInv (s : PState) : Prop where
  scope_queue : ∀ j ∈ s.procQueue, currentBid s.coord = some j.batch
  scope_workers : ∀ g j, s.workers.get? g = some (.busy j) →
    currentBid s.coord = some j.batch
  scope_fanning : ∀ bid js total, s.coord = .fanning bid js total →
    ∀ j ∈ js, j.batch = bid
  coord_dequeued : s.dequeued = s.finished ++ (currentBid s.coord).toList
  finished_done : ∀ b ∈ s.finished, alookD s.counts b = alookD s.totals b
  keys_counts : s.counts.map Prod.fst = s.dequeued.reverse
  keys_totals : s.totals.map Prod.fst = s.dequeued.reverse
  ids_sorted : (s.dequeued ++ s.batchQueue.map Prod.fst).Pairwise (· < ·)
  ids_lt_queue : ∀ p ∈ s.batchQueue, p.1 < s.nextBatchId
  ids_lt_dequeued : ∀ b ∈ s.dequeued, b < s.nextBatchId
  count_eq : CountEq s

/-- A reachable pipeline state (1 device) in which worker 0 is mid-dispatch
on device 0 while a `/api/upload` engine call is simultaneously open on
device 0. -/
def c5state : PState :=
  ⟨[], 1, .fanning 0 [] 1, [], [.busy ⟨0, 0⟩], [(0, 0)], [(0, 1)], [], [0], [0], 0⟩

/-! ## Theorems -/

theorem get_image_applyStores (ops : List (String × ImageRecord)) (s : Store)
    (image_id : String) (hop : image_id ∉ ops.map Prod.fst)
    (hs : get_image s image_id = none) :
    get_image (applyStores s ops) image_id = none := by
  induction ops generalizing s with
  | nil => exact hs
  | cons p rest ih =>
    obtain ⟨k, r⟩ := p
    simp only [List.map_cons, List.mem_cons, not_or] at hop
    refine ih (store_image s k r) hop.2 ?_
    simp only [store_image, get_image]
    rw [if_neg (by exact fun h => hop.1 h.symm)]
    exact hs

/-- C9: `get_image` after `store_image` returns exactly the stored record,
and `get_image` of an id never stored returns `None`. -/
theorem C9_store_get_roundtrip :
    (∀ (s : Store) (image_id : String) (r : ImageRecord),
        get_image (store_image s image_id r) image_id = some r) ∧
    (∀ (ops : List (String × ImageRecord)) (image_id : String),
        image_id ∉ ops.map Prod.fst →
        get_image (applyStores [] ops) image_id = none) := by
  constructor
  · intro s image_id r
    simp [store_image, get_image]
  · intro ops image_id hop
    exact get_image_applyStores ops [] image_id hop rfl

/-- Witness for C9 at a concrete store and id. -/
theorem C9_store_get_roundtrip_witness :
    get_image (store_image [] "img_0" ⟨[7], "a-no-bg.png", "PNG", "image/png"⟩)
        "img_0" = some ⟨[7], "a-no-bg.png", "PNG", "image/png"⟩ ∧
    get_image (applyStores [] [("img_0", ⟨[7], "a-no-bg.png", "PNG", "image/png"⟩)])
        "img_1" = none :=
  ⟨C9_store_get_roundtrip.1 [] "img_0" ⟨[7], "a-no-bg.png", "PNG", "image/png"⟩,
   C9_store_get_roundtrip.2 [("img_0", ⟨[7], "a-no-bg.png", "PNG", "image/png"⟩)]
     "img_1" (by simp)⟩

/-- C10: `optimize_image_size` is the identity when both dimensions are at
most `maxDim`; otherwise the larger output dimension equals `maxDim`, the
other is at most `maxDim`, and it equals the smaller input dimension scaled
by `maxDim` over the larger one, truncated. -/
theorem C10_optimize_image_size (width height maxDim : Nat) (_hmax : 1 ≤ maxDim) :
    (width ≤ maxDim ∧ height ≤ maxDim →
      optimize_image_size width height maxDim = (width, height)) ∧
    (¬(width ≤ maxDim ∧ height ≤ maxDim) →
      max (optimize_image_size width height maxDim).1
          (optimize_image_size width height maxDim).2 = maxDim ∧
      min (optimize_image_size width height maxDim).1
          (optimize_image_size width height maxDim).2 ≤ maxDim ∧
      min (optimize_image_size width height maxDim).1
          (optimize_image_size width height maxDim).2 =
        min width height * maxDim / max width height) := by
  constructor
  · intro h
    simp [optimize_image_size, h]
  · intro h
    rw [optimize_image_size, if_neg h]
    by_cases hlt : height < width
    · have hw : maxDim < width := by
        rcases Nat.lt_or_ge maxDim width with h' | h'
        · exact h'
        · exact absurd ⟨h', le_trans (le_of_lt hlt) h'⟩ h
      have hwpos : 0 < width := lt_of_le_of_lt (Nat.zero_le _) hw
      have hle : height * maxDim / width ≤ maxDim := by
        calc height * maxDim / width ≤ width * maxDim / width :=
              Nat.div_le_div_right (Nat.mul_le_mul_right _ (le_of_lt hlt))
          _ = maxDim := Nat.mul_div_cancel_left _ hwpos
      rw [if_pos hlt]
      refine ⟨Nat.max_eq_left hle, ?_, ?_⟩
      · simp only [Nat.min_eq_right hle]
        exact hle
      · rw [Nat.min_eq_right hle, Nat.min_eq_right (le_of_lt hlt),
          Nat.max_eq_left (le_of_lt hlt)]
    · have hwh : width ≤ height := Nat.le_of_not_lt hlt
      have hh : maxDim < height := by
        rcases Nat.lt_or_ge maxDim height with h' | h'
        · exact h'
        · rcases Nat.lt_or_ge maxDim width with h'' | h''
          · exact lt_of_lt_of_le h'' hwh
          · exact absurd ⟨h'', h'⟩ h
      have hhpos : 0 < height := lt_of_le_of_lt (Nat.zero_le _) hh
      have hle : width * maxDim / height ≤ maxDim := by
        calc width * maxDim / height ≤ height * maxDim / height :=
              Nat.div_le_div_right (Nat.mul_le_mul_right _ hwh)
          _ = maxDim := Nat.mul_div_cancel_left _ hhpos
      rw [if_neg hlt]
      refine ⟨Nat.max_eq_right hle, ?_, ?_⟩
      · simp only [Nat.min_eq_left hle]
        exact hle
      · rw [Nat.min_eq_left hle, Nat.min_eq_left hwh, Nat.max_eq_right hwh]

/-- Witness for C10: a 4000×1000 image with limit 1024 resizes to 1024×256;
a 100×50 image is unchanged. -/
theorem C10_optimize_image_size_witness :
    optimize_image_size 100 50 1024 = (100, 50) ∧
    max (optimize_image_size 4000 1000 1024).1
        (optimize_image_size 4000 1000 1024).2 = 1024 ∧
    min (optimize_image_size 4000 1000 1024).1
        (optimize_image_size 4000 1000 1024).2 =
      min 4000 1000 * 1024 / max 4000 1000 :=
  ⟨(C10_optimize_image_size 100 50 1024 (by decide)).1 (by decide),
   ((C10_optimize_image_size 4000 1000 1024 (by decide)).2 (by decide)).1,
   ((C10_optimize_image_size 4000 1000 1024 (by decide)).2 (by decide)).2.2⟩

/-- C8: the chunk-reset guard `chunk_errors > chunk_end - chunk_start * 0.5`
can never hold when the error count is bounded by the chunk size, so the
all-devices reset never fires on any chunk — while the condition the comment
and spec describe (errors exceeding half the chunk size) does hold, e.g. on a
first chunk of 108 images with 100 failures. -/
theorem C8_chunk_reset_never_fires (chunk_start chunk_end chunk_errors : Nat)
    (hse : chunk_start ≤ chunk_end)
    (herr : chunk_errors ≤ chunk_end - chunk_start) :
    chunk_reset_condition chunk_start chunk_end chunk_errors = false ∧
    claimed_reset_condition 0 108 100 = true ∧
    chunk_reset_condition 0 108 100 = false := by
  refine ⟨?_, ?_, ?_⟩
  case refine_2 =>
    simp only [claimed_reset_condition, decide_eq_true_eq]
    norm_num
  case refine_3 =>
    simp only [chunk_reset_condition, decide_eq_false_iff_not, not_lt]
    norm_num
  simp only [chunk_reset_condition, decide_eq_false_iff_not, not_lt]
  have h1 : (chunk_errors : ℚ) ≤ (chunk_end : ℚ) - (chunk_start : ℚ) := by
    have := Nat.cast_le (α := ℚ).mpr herr
    rwa [Nat.cast_sub hse] at this
  have h2 : (0 : ℚ) ≤ (chunk_start : ℚ) := Nat.cast_nonneg _
  linarith

/-- Witness for C8 at a concrete chunk (start 108, end 216, 80 failures). -/
theorem C8_chunk_reset_never_fires_witness :
    chunk_reset_condition 108 216 80 = false ∧
    claimed_reset_condition 0 108 100 = true :=
  ⟨(C8_chunk_reset_never_fires 108 216 80 (by decide) (by decide)).1,
   (C8_chunk_reset_never_fires 108 216 80 (by decide) (by decide)).2.1⟩

/-- C7: after a reset whose instance recreation fails, the next
`get_instance` for that device does not retry construction: the key is still
present (bound to `None`), so the stored `None` is returned as the instance
and the table is left unchanged.  (With a fresh key, `get_instance` does
construct — the "lazy reinit" path only covers absent keys.) -/
theorem C7_failed_recreate_acquire_returns_none :
    (get_instance 1 (reset_gpu ⟨[(0, some 7)], 8⟩ 0 false) 0).2 = none ∧
    (get_instance 1 (reset_gpu ⟨[(0, some 7)], 8⟩ 0 false) 0).1 =
      reset_gpu ⟨[(0, some 7)], 8⟩ 0 false ∧
    (get_instance 1 (⟨[], 0⟩ : GpuTable) 0).2 = some 0 := by
  decide

/-- C3: if the first attempt fails with the transient-recoverable signature,
`reset_gpu` is invoked exactly once and the job is dispatched exactly once
more; if the second attempt also fails the final result is a failure with no
further reset.  A first failure without the signature is never retried: one
dispatch, zero resets, immediate failure. -/
theorem C3_retry_policy (outcomes : Nat → AttemptResult) :
    (∀ e₀, outcomes 0 = .err e₀ → transientSignature e₀ = true →
      (process_image_sync outcomes).resets = 1 ∧
      (process_image_sync outcomes).dispatches = 2 ∧
      (∀ e₁, outcomes 1 = .err e₁ →
        ∃ m, (process_image_sync outcomes).result = .error m)) ∧
    (∀ e₀, outcomes 0 = .err e₀ → transientSignature e₀ = false →
      (process_image_sync outcomes).resets = 0 ∧
      (process_image_sync outcomes).dispatches = 1 ∧
      ∃ m, (process_image_sync outcomes).result = .error m) := by
  constructor
  · intro e₀ h0 hsig
    simp only [transientSignature, Bool.and_eq_true] at hsig
    obtain ⟨hrt, hmatch⟩ := hsig
    have hmain : process_image_sync outcomes =
        retryFrom outcomes 1 1 1 1 := by
      simp [process_image_sync, max_retries, retryFrom, h0, hrt, hmatch]
    rcases h1 : outcomes 1 with out | e₁
    · refine ⟨?_, ?_, ?_⟩
      · rw [hmain]; simp [retryFrom, h1]
      · rw [hmain]; simp [retryFrom, h1]
      · intro e₁ h1e; simp_all
    · rw [hmain]
      cases hrt1 : e₁.isRuntimeError
      · refine ⟨?_, ?_, ?_⟩ <;> simp [retryFrom, h1, hrt1, max_retries]
      · cases hm1 : (lowerContains e₁.msg "illegal memory access" ||
            strContains e₁.msg "cudaErrorIllegalAddress") <;>
          refine ⟨?_, ?_, ?_⟩ <;>
            simp [retryFrom, h1, hrt1, hm1, max_retries]
  · intro e₀ h0 hsig
    cases hrt : e₀.isRuntimeError
    · refine ⟨?_, ?_, ?_⟩ <;>
        simp [process_image_sync, max_retries, retryFrom, h0, hrt]
    · have hmatch : (lowerContains e₀.msg "illegal memory access" ||
          strContains e₀.msg "cudaErrorIllegalAddress") = false := by
        simpa [transientSignature, hrt] using hsig
      refine ⟨?_, ?_, ?_⟩ <;>
        simp [process_image_sync, max_retries, retryFrom, h0, hrt, hmatch]

/-- Witness for C3: a job failing twice with the CUDA
illegal-memory-access signature ends `Failed` with exactly one reset and two
dispatches; a job failing with a fatal signature fails with no reset. -/
theorem C3_retry_policy_witness :
    (process_image_sync (fun _ =>
        .err ⟨true, "CUDA error: an illegal memory access was encountered"⟩)).resets = 1 ∧
    (process_image_sync (fun _ =>
        .err ⟨true, "CUDA error: an illegal memory access was encountered"⟩)).dispatches = 2 ∧
    (process_image_sync (fun _ => .err ⟨false, "bad image"⟩)).resets = 0 ∧
    (process_image_sync (fun _ => .err ⟨false, "bad image"⟩)).dispatches = 1 :=
  ⟨((C3_retry_policy _).1 _ rfl (by decide)).1,
   ((C3_retry_policy _).1 _ rfl (by decide)).2.1,
   ((C3_retry_policy _).2 _ rfl (by decide)).1,
   ((C3_retry_policy _).2 _ rfl (by decide)).2.1⟩

/-- C1: the `gpu_worker` loop delivers, for every task dequeued before the
shutdown sentinel, exactly one callback invocation, in order, carrying that
task's id; and every delivered result is terminal — success with no error,
or failure with an error message. -/
theorem C1_gpu_worker_exactly_one_result (queue : List (Option WTask))
    (proc : WTask → ProcOutcome) :
    gpu_worker queue proc =
      (dequeuedTasks queue).map (fun t => gpu_worker_handle t (proc t)) ∧
    (∀ t ∈ dequeuedTasks queue,
      (gpu_worker_handle t (proc t)).taskId = t.taskId) ∧
    (∀ r ∈ gpu_worker queue proc,
      (r.success = true ∧ r.error = none) ∨
      (r.success = false ∧ r.error ≠ none)) := by
  refine ⟨?_, ?_, ?_⟩
  · induction queue with
    | nil => rfl
    | cons o rest ih =>
      cases o with
      | none => rfl
      | some t => simp [gpu_worker, dequeuedTasks, ih]
  · intro t _
    cases proc t <;> rfl
  · intro r hr
    induction queue with
    | nil => cases hr
    | cons o rest ih =>
      cases o with
      | none => cases hr
      | some t =>
        rcases List.mem_cons.mp hr with h | h
        · subst h
          cases hp : proc t
          · left; simp [gpu_worker_handle, hp]
          · right; simp [gpu_worker_handle, hp]
        · exact ih h

/-- Witness for C1: in a concrete run with one success and one failure the
failure's callback result is terminal (failure with an error message). -/
theorem C1_gpu_worker_exactly_one_result_witness :
    ((⟨4, false, some "Error processing image 4 (b.png): boom", none,
        "b.png"⟩ : WorkerResult).success = true ∧
      (⟨4, false, some "Error processing image 4 (b.png): boom", none,
        "b.png"⟩ : WorkerResult).error = none) ∨
    ((⟨4, false, some "Error processing image 4 (b.png): boom", none,
        "b.png"⟩ : WorkerResult).success = false ∧
      (⟨4, false, some "Error processing image 4 (b.png): boom", none,
        "b.png"⟩ : WorkerResult).error ≠ none) :=
  (C1_gpu_worker_exactly_one_result
      [some ⟨3, "a.png"⟩, some ⟨4, "b.png"⟩, none]
      (fun t => if t.taskId = 3 then .ok "image/png" "a-no-bg.png" "PNG"
                else .err "boom")).2.2
    ⟨4, false, some "Error processing image 4 (b.png): boom", none, "b.png"⟩
    (by decide)

theorem counterAfter_zero_eq (K : Nat) : ∀ m, counterAfter K 0 m = m % K := by
  intro m
  induction m with
  | zero => exact (Nat.zero_mod K).symm
  | succ m ih =>
    show (counterAfter K 0 m + 1) % K = (m + 1) % K
    rw [ih, Nat.add_mod (m % K) 1 K, Nat.mod_mod_of_dvd m (dvd_refl K),
      ← Nat.add_mod]

theorem rrAssignments_zero_eq (K : Nat) :
    ∀ m, rrAssignments K 0 m = (List.range m).map (fun i => i % K) := by
  intro m
  induction m with
  | zero => rfl
  | succ m ih =>
    show rrAssignments K 0 m ++ [counterAfter K 0 m % K] = _
    rw [ih, counterAfter_zero_eq, Nat.mod_mod_of_dvd m (dvd_refl K),
      List.range_succ, List.map_append]
    rfl

theorem range_mod_countP (K d : Nat) (hK : 0 < K) (hd : d < K) :
    ∀ M, (List.range M).countP (fun i => i % K == d) =
      M / K + if d < M % K then 1 else 0 := by
  intro M
  induction M with
  | zero => simp
  | succ M ih =>
    rw [List.range_succ, List.countP_append, ih, List.countP_cons, List.countP_nil]
    have hr : M % K < K := Nat.mod_lt M hK
    have hqr : K * (M / K) + M % K = M := Nat.div_add_mod M K
    rcases Nat.lt_or_ge (M % K + 1) K with hc | hc
    · have hdm : (M + 1) / K = M / K ∧ (M + 1) % K = M % K + 1 := by
        refine (Nat.div_mod_unique hK).mpr ⟨?_, hc⟩
        revert hqr
        generalize K * (M / K) = t
        omega
      rw [hdm.1, hdm.2]
      simp only [beq_iff_eq]
      split_ifs <;> omega
    · have hdm : (M + 1) / K = M / K + 1 ∧ (M + 1) % K = 0 := by
        refine (Nat.div_mod_unique hK).mpr ⟨?_, hK⟩
        rw [Nat.mul_succ]
        revert hqr
        generalize K * (M / K) = t
        omega
      rw [hdm.1, hdm.2]
      simp only [beq_iff_eq]
      split_ifs <;> omega

theorem ceil_div_of_mod_ne_zero (M K : Nat) (hK : 0 < K) (hr : M % K ≠ 0) :
    (M + K - 1) / K = M / K + 1 := by
  have hrK : M % K < K := Nat.mod_lt M hK
  have hqr : K * (M / K) + M % K = M := Nat.div_add_mod M K
  have : (M + K - 1) / K = M / K + 1 ∧ (M + K - 1) % K = M % K - 1 := by
    refine (Nat.div_mod_unique hK).mpr ⟨?_, by omega⟩
    rw [Nat.mul_succ]
    revert hqr
    generalize K * (M / K) = t
    omega
  exact this.1

/-- C6: over `K ≥ 1` devices, the round-robin counter of `get_instance`
advances by one modulo `K` per call, and `M` acquisitions without an explicit
device give every device either `⌊M/K⌋` or `⌈M/K⌉` assignments. -/
theorem C6_round_robin_distribution (K M : Nat) (hK : 1 ≤ K) :
    (∀ m, counterAfter K 0 m = m % K) ∧
    (∀ d, d < K →
      (rrAssignments K 0 M).count d = M / K ∨
      (rrAssignments K 0 M).count d = (M + K - 1) / K) := by
  refine ⟨counterAfter_zero_eq K, ?_⟩
  intro d hd
  rw [rrAssignments_zero_eq, List.count, List.countP_map]
  have hcount : (List.range M).countP (fun i => i % K == d) =
      M / K + if d < M % K then 1 else 0 := range_mod_countP K d hK hd M
  have hcomp : ((fun a => a == d) ∘ fun i => i % K) = fun i => i % K == d := rfl
  rw [hcomp, hcount]
  by_cases hlt : d < M % K
  · right
    rw [if_pos hlt, ceil_div_of_mod_ne_zero M K hK (by omega)]
  · left
    rw [if_neg hlt]
    omega

/-- Witness for C6 at 3 devices and 7 acquisitions. -/
theorem C6_round_robin_distribution_witness :
    counterAfter 3 0 5 = 5 % 3 ∧
    ((rrAssignments 3 0 7).count 1 = 7 / 3 ∨
      (rrAssignments 3 0 7).count 1 = (7 + 3 - 1) / 3) :=
  ⟨(C6_round_robin_distribution 3 7 (by decide)).1 5,
   (C6_round_robin_distribution 3 7 (by decide)).2 1 (by decide)⟩

/-- C2 (failing run): with batch 0 of two images, one of its results
delivered, then batch 1 of one image reaching `batch_end`, the two remaining
results are credited to batch 1 through the shared closure cell: batch 0
never receives a `batch_complete`, batch 1 receives two, and the second one
reports `successful + failed = 2` against `total = 1`. -/
theorem C2_batch_complete_miscount :
    (wsRun [.batch_start 2, .batch_end 2, .result true, .batch_start 1,
            .batch_end 1, .result true, .result true]).2 =
      [⟨1, 1, 1, 0⟩, ⟨1, 1, 2, 0⟩] ∧
    ((wsRun [.batch_start 2, .batch_end 2, .result true, .batch_start 1,
             .batch_end 1, .result true, .result true]).2.countP
        (fun m => m.batchId == 0)) = 0 ∧
    ((wsRun [.batch_start 2, .batch_end 2, .result true, .batch_start 1,
             .batch_end 1, .result true, .result true]).2.countP
        (fun m => m.batchId == 1)) = 2 ∧
    ((wsRun [.batch_start 2, .batch_end 2, .result true, .batch_start 1,
             .batch_end 1, .result true, .result true]).2.countP
        (fun m => m.successful + m.failed == m.total)) = 1 := by
  decide

theorem alookD_abump_ne : ∀ (l : List (Nat × Nat)) (k k' : Nat), k' ≠ k →
    alookD (abump l k) k' = alookD l k'
  | [], _, _, _ => rfl
  | (a, v) :: rest, k, k', h => by
    by_cases hak : a = k
    · subst hak
      simp only [abump, if_pos rfl, alookD]
      rw [if_neg (fun hh : a = k' => h hh.symm), if_neg (fun hh : a = k' => h hh.symm)]
    · simp only [abump, if_neg hak, alookD]
      by_cases hak' : a = k'
      · rw [if_pos hak', if_pos hak']
      · rw [if_neg hak', if_neg hak']
        exact alookD_abump_ne rest k k' h

theorem alookD_abump_mem : ∀ (l : List (Nat × Nat)) (k : Nat), k ∈ l.map Prod.fst →
    alookD (abump l k) k = alookD l k + 1
  | [], _, h => absurd h (by simp)
  | (a, v) :: rest, k, h => by
    by_cases hak : a = k
    · subst hak
      simp [abump, alookD]
    · have hk : k ∈ rest.map Prod.fst := by
        rcases List.mem_cons.mp h with heq | hm
        · exact absurd heq.symm hak
        · exact hm
      simp only [abump, if_neg hak, alookD, if_neg hak]
      exact alookD_abump_mem rest k hk

theorem abump_map_fst : ∀ (l : List (Nat × Nat)) (k : Nat),
    (abump l k).map Prod.fst = l.map Prod.fst
  | [], _ => rfl
  | (a, v) :: rest, k => by
    by_cases hak : a = k
    · simp [abump, hak]
    · simp [abump, hak, abump_map_fst rest k]

theorem busyCount_set : ∀ (ws : List WorkerState) (g : Nat) (w w' : WorkerState),
    ws.get? g = some w →
    busyCount (ws.set g w') + (if isBusy w then 1 else 0) =
      busyCount ws + (if isBusy w' then 1 else 0)
  | [], _, _, _, h => by cases h
  | a :: rest, 0, w, w', h => by
    have ha : a = w := by injection h
    subst ha
    simp only [List.set, busyCount, List.countP_cons]
    omega
  | a :: rest, g + 1, w, w', h => by
    have h' : rest.get? g = some w := h
    have ih := busyCount_set rest g w w' h'
    simp only [List.set, busyCount, List.countP_cons] at ih ⊢
    omega

theorem busyCount_set_busy (ws : List WorkerState) (g : Nat) (j : PJob)
    (hw : ws.get? g = some .waiting) :
    busyCount (ws.set g (.busy j)) = busyCount ws + 1 := by
  have h := busyCount_set ws g .waiting (.busy j) hw
  simpa [isBusy] using h

theorem busyCount_set_waiting (ws : List WorkerState) (g : Nat) (j : PJob)
    (hw : ws.get? g = some (.busy j)) :
    busyCount (ws.set g .waiting) + 1 = busyCount ws := by
  have h := busyCount_set ws g (.busy j) .waiting hw
  simpa [isBusy] using h

theorem busyCount_eq_zero : ∀ (ws : List WorkerState),
    (∀ g j, ws.get? g = some (.busy j) → False) → busyCount ws = 0
  | [], _ => rfl
  | a :: rest, h => by
    have ha : isBusy a = false := by
      cases a with
      | waiting => rfl
      | busy j => exact ((h 0 j rfl).elim)
    have ihz := busyCount_eq_zero rest (fun g j hg => h (g + 1) j hg)
    simp only [busyCount, List.countP_cons, ha, if_false] at ihz ⊢
    simpa [busyCount] using ihz

theorem no_busy_of_busyCount_zero : ∀ (ws : List WorkerState),
    busyCount ws = 0 → ∀ g j, ws.get? g = some (.busy j) → False
  | [], _, g, j, h => by cases h
  | a :: rest, h0, 0, j, h => by
    have ha : a = .busy j := by injection h
    rw [ha] at h0
    simp [busyCount, List.countP_cons, isBusy] at h0
  | a :: rest, h0, g + 1, j, h => by
    have hrest : busyCount rest = 0 := by
      simp only [busyCount, List.countP_cons] at h0 ⊢
      omega
    exact no_busy_of_busyCount_zero rest hrest g j h

theorem wget_set_self : ∀ (ws : List WorkerState) (g : Nat) (w w' : WorkerState),
    ws.get? g = some w → (ws.set g w').get? g = some w'
  | [], _, _, _, h => by cases h
  | _ :: _, 0, _, _, _ => rfl
  | a :: rest, g + 1, w, w', h => wget_set_self rest g w w' h

theorem wget_set_ne : ∀ (ws : List WorkerState) (g g' : Nat) (w' : WorkerState),
    g ≠ g' → (ws.set g w').get? g' = ws.get? g'
  | [], _, _, _, _ => rfl
  | _ :: _, 0, 0, _, h => absurd rfl h
  | _ :: _, 0, _ + 1, _, _ => rfl
  | _ :: _, _ + 1, 0, _, _ => rfl
  | a :: rest, g + 1, g' + 1, w', h =>
    wget_set_ne rest g g' w' (fun hh => h (by rw [hh]))

theorem wget_replicate_waiting : ∀ (K g : Nat) (w : WorkerState),
    (List.replicate K WorkerState.waiting).get? g = some w → w = .waiting
  | 0, _, _, h => by cases h
  | _ + 1, 0, w, h => by injection h with h; exact h.symm
  | K + 1, g + 1, w, h => wget_replicate_waiting K g w h

theorem busyCount_replicate_waiting (K : Nat) :
    busyCount (List.replicate K .waiting) = 0 := by
  induction K with
  | zero => rfl
  | succ K ih =>
    simp only [List.replicate, busyCount, List.countP_cons, isBusy, if_false] at ih ⊢
    simpa [busyCount] using ih

theorem procQueue_nil_of_idle {s : PState} (hinv : PInv s) (hc : s.coord = .idle) :
    s.procQueue = [] := by
  cases hpq : s.procQueue with
  | nil => rfl
  | cons j rest =>
    have hsc := hinv.scope_queue j (by rw [hpq]; exact List.mem_cons_self j rest)
    rw [hc] at hsc
    simp [currentBid] at hsc

theorem no_busy_of_idle {s : PState} (hinv : PInv s) (hc : s.coord = .idle) :
    ∀ g j, s.workers.get? g = some (.busy j) → False := by
  intro g j h
  have hsc := hinv.scope_workers g j h
  rw [hc] at hsc
  simp [currentBid] at hsc

theorem PInv_init (K : Nat) : PInv (initPState K) where
  scope_queue := by intro j hj; cases hj
  scope_workers := by
    intro g j h
    have := wget_replicate_waiting K g _ h
    cases this
  scope_fanning := by intro bid js total h; cases h
  coord_dequeued := rfl
  finished_done := by intro b hb; cases hb
  keys_counts := rfl
  keys_totals := rfl
  ids_sorted := List.Pairwise.nil
  ids_lt_queue := by intro p hp; cases hp
  ids_lt_dequeued := by intro b hb; cases hb
  count_eq := trivial

theorem PInv_step {K : Nat} {s s' : PState} (hinv : PInv s)
    (hstep : PStep K s s') : PInv s' := by
  cases hstep with
  | submit n =>
    refine ⟨hinv.scope_queue, hinv.scope_workers, hinv.scope_fanning,
      hinv.coord_dequeued, hinv.finished_done, hinv.keys_counts,
      hinv.keys_totals, ?_, ?_, ?_, hinv.count_eq⟩
    · show (s.dequeued ++
          (s.batchQueue ++ [(s.nextBatchId, n)]).map Prod.fst).Pairwise (· < ·)
      rw [List.map_append, ← List.append_assoc, List.pairwise_append]
      refine ⟨hinv.ids_sorted, by simp, ?_⟩
      intro x hx y hy
      have hy' : y = s.nextBatchId := by simpa using hy
      subst hy'
      rcases List.mem_append.mp hx with h | h
      · exact hinv.ids_lt_dequeued x h
      · obtain ⟨p, hp, rfl⟩ := List.mem_map.mp h
        exact hinv.ids_lt_queue p hp
    · show ∀ p ∈ s.batchQueue ++ [(s.nextBatchId, n)], p.1 < s.nextBatchId + 1
      intro p hp
      rcases List.mem_append.mp hp with h | h
      · have := hinv.ids_lt_queue p h
        omega
      · have : p = (s.nextBatchId, n) := by simpa using h
        subst this
        omega
    · show ∀ b ∈ s.dequeued, b < s.nextBatchId + 1
      intro b hb
      have := hinv.ids_lt_dequeued b hb
      omega
  | coordDequeue bid n rest hq hc =>
    have hpq : s.procQueue = [] := procQueue_nil_of_idle hinv hc
    have hnb : ∀ g j, s.workers.get? g = some (.busy j) → False :=
      no_busy_of_idle hinv hc
    have hbz : busyCount s.workers = 0 := busyCount_eq_zero _ hnb
    have hdq : s.dequeued = s.finished := by
      have hcd := hinv.coord_dequeued
      rw [hc] at hcd
      simpa [currentBid] using hcd
    have hbidlt : bid < s.nextBatchId :=
      hinv.ids_lt_queue (bid, n) (by rw [hq]; exact List.mem_cons_self _ _)
    have hbid_gt : ∀ b ∈ s.dequeued, b < bid := by
      intro b hb
      have hps := hinv.ids_sorted
      rw [hq, List.map_cons] at hps
      rw [List.pairwise_append] at hps
      exact hps.2.2 b hb bid (List.mem_cons_self _ _)
    refine ⟨?_, ?_, ?_, ?_, ?_, ?_, ?_, ?_, ?_, ?_, ?_⟩
    · show ∀ j ∈ s.procQueue,
        currentBid (.fanning bid (jobsOf bid n) n) = some j.batch
      intro j hj
      rw [hpq] at hj
      cases hj
    · show ∀ g j, s.workers.get? g = some (.busy j) →
        currentBid (.fanning bid (jobsOf bid n) n) = some j.batch
      intro g j h
      exact (hnb g j h).elim
    · show ∀ bid' js total,
        (CoordState.fanning bid (jobsOf bid n) n) = .fanning bid' js total →
        ∀ j ∈ js, j.batch = bid'
      intro bid' js total h' j hj
      injection h' with h1 h2 h3
      subst h1
      subst h2
      simp only [jobsOf, List.mem_map] at hj
      obtain ⟨i, _, rfl⟩ := hj
      rfl
    · show s.dequeued ++ [bid] =
        s.finished ++ (currentBid (.fanning bid (jobsOf bid n) n)).toList
      simp [currentBid, hdq]
    · show ∀ b ∈ s.finished,
        alookD ((bid, 0) :: s.counts) b = alookD ((bid, n) :: s.totals) b
      intro b hb
      have hbne : bid ≠ b := by
        have := hbid_gt b (by rw [hdq]; exact hb)
        omega
      simp only [alookD, if_neg hbne]
      exact hinv.finished_done b hb
    · show ((bid, 0) :: s.counts).map Prod.fst = (s.dequeued ++ [bid]).reverse
      simp [hinv.keys_counts]
    · show ((bid, n) :: s.totals).map Prod.fst = (s.dequeued ++ [bid]).reverse
      simp [hinv.keys_totals]
    · show ((s.dequeued ++ [bid]) ++ rest.map Prod.fst).Pairwise (· < ·)
      have hps := hinv.ids_sorted
      rw [hq, List.map_cons] at hps
      rw [List.append_assoc]
      exact hps
    · show ∀ p ∈ rest, p.1 < s.nextBatchId
      intro p hp
      exact hinv.ids_lt_queue p (by rw [hq]; exact List.mem_cons_of_mem _ hp)
    · show ∀ b ∈ s.dequeued ++ [bid], b < s.nextBatchId
      intro b hb
      rcases List.mem_append.mp hb with h | h
      · exact hinv.ids_lt_dequeued b h
      · have : b = bid := by simpa using h
        subst this
        exact hbidlt
    · show alookD ((bid, 0) :: s.counts) bid + s.procQueue.length +
          busyCount s.workers + (jobsOf bid n).length = n ∧
        alookD ((bid, n) :: s.totals) bid = n
      constructor
      · simp [alookD, hpq, hbz, jobsOf]
      · simp [alookD]
  | coordEnqueue bid j js total hc =>
    have hjb : j.batch = bid :=
      hinv.scope_fanning bid (j :: js) total hc j (List.mem_cons_self _ _)
    refine ⟨?_, ?_, ?_, ?_, hinv.finished_done, hinv.keys_counts,
      hinv.keys_totals, hinv.ids_sorted, hinv.ids_lt_queue,
      hinv.ids_lt_dequeued, ?_⟩
    · show ∀ j' ∈ s.procQueue ++ [j],
        currentBid (.fanning bid js total) = some j'.batch
      intro j' hj'
      rcases List.mem_append.mp hj' with h | h
      · have := hinv.scope_queue j' h
        rw [hc] at this
        exact this
      · have : j' = j := by simpa using h
        subst this
        simp [currentBid, hjb]
    · show ∀ g j', s.workers.get? g = some (.busy j') →
        currentBid (.fanning bid js total) = some j'.batch
      intro g j' h
      have := hinv.scope_workers g j' h
      rw [hc] at this
      exact this
    · show ∀ bid' js' total', (CoordState.fanning bid js total) = .fanning bid' js' total' →
        ∀ jj ∈ js', jj.batch = bid'
      intro bid' js' total' h' jj hjj
      injection h' with h1 h2 h3
      subst h1
      subst h2
      exact hinv.scope_fanning bid (j :: js) total hc jj (List.mem_cons_of_mem _ hjj)
    · show s.dequeued = s.finished ++ (currentBid (.fanning bid js total)).toList
      have := hinv.coord_dequeued
      rw [hc] at this
      exact this
    · show alookD s.counts bid + (s.procQueue ++ [j]).length +
          busyCount s.workers + js.length = total ∧
        alookD s.totals bid = total
      have h := hinv.count_eq
      unfold CountEq at h
      rw [hc] at h
      refine ⟨?_, h.2⟩
      have h1 := h.1
      simp only [List.length_cons] at h1
      simp only [List.length_append, List.length_cons, List.length_nil]
      omega
  | coordFanDone bid total hc =>
    refine ⟨?_, ?_, ?_, ?_, hinv.finished_done, hinv.keys_counts,
      hinv.keys_totals, hinv.ids_sorted, hinv.ids_lt_queue,
      hinv.ids_lt_dequeued, ?_⟩
    · show ∀ j ∈ s.procQueue, currentBid (.waiting bid total) = some j.batch
      intro j hj
      have := hinv.scope_queue j hj
      rw [hc] at this
      exact this
    · show ∀ g j, s.workers.get? g = some (.busy j) →
        currentBid (.waiting bid total) = some j.batch
      intro g j h
      have := hinv.scope_workers g j h
      rw [hc] at this
      exact this
    · show ∀ bid' js' total', (CoordState.waiting bid total) = .fanning bid' js' total' →
        ∀ jj ∈ js', jj.batch = bid'
      intro bid' js' total' h'
      cases h'
    · show s.dequeued = s.finished ++ (currentBid (.waiting bid total)).toList
      have := hinv.coord_dequeued
      rw [hc] at this
      exact this
    · show alookD s.counts bid + s.procQueue.length + busyCount s.workers = total ∧
        alookD s.totals bid = total
      have h := hinv.count_eq
      unfold CountEq at h
      rw [hc] at h
      refine ⟨?_, h.2⟩
      have h1 := h.1
      simp only [List.length_nil] at h1
      omega
  | coordDone bid total hc hcount =>
    have h := hinv.count_eq
    unfold CountEq at h
    rw [hc] at h
    have hq0 : s.procQueue.length = 0 := by
      have := h.1
      omega
    have hb0 : busyCount s.workers = 0 := by
      have := h.1
      omega
    have hpq : s.procQueue = [] := List.length_eq_zero.mp hq0
    have hnb := no_busy_of_busyCount_zero s.workers hb0
    refine ⟨?_, ?_, ?_, ?_, ?_, hinv.keys_counts, hinv.keys_totals,
      hinv.ids_sorted, hinv.ids_lt_queue, hinv.ids_lt_dequeued, trivial⟩
    · show ∀ j ∈ s.procQueue, currentBid .idle = some j.batch
      intro j hj
      rw [hpq] at hj
      cases hj
    · show ∀ g j, s.workers.get? g = some (.busy j) →
        currentBid .idle = some j.batch
      intro g j hg
      exact (hnb g j hg).elim
    · show ∀ bid' js' total', (CoordState.idle) = .fanning bid' js' total' →
        ∀ jj ∈ js', jj.batch = bid'
      intro bid' js' total' h'
      cases h'
    · show s.dequeued = (s.finished ++ [bid]) ++ (currentBid .idle).toList
      have hcd := hinv.coord_dequeued
      rw [hc] at hcd
      simp only [currentBid, Option.toList] at hcd ⊢
      simpa using hcd
    · show ∀ b ∈ s.finished ++ [bid],
        alookD s.counts b = alookD s.totals b
      intro b hb
      rcases List.mem_append.mp hb with hf | hbid
      · exact hinv.finished_done b hf
      · have : b = bid := by simpa using hbid
        subst this
        rw [hcount, h.2]
  | workerBegin g j rest hw hq =>
    have hcurj : currentBid s.coord = some j.batch :=
      hinv.scope_queue j (by rw [hq]; exact List.mem_cons_self _ _)
    have hbs := busyCount_set_busy s.workers g j hw
    have hlen : s.procQueue.length = rest.length + 1 := by
      rw [hq]
      rfl
    refine ⟨?_, ?_, hinv.scope_fanning, hinv.coord_dequeued,
      hinv.finished_done, hinv.keys_counts, hinv.keys_totals,
      hinv.ids_sorted, hinv.ids_lt_queue, hinv.ids_lt_dequeued, ?_⟩
    · show ∀ j' ∈ rest, currentBid s.coord = some j'.batch
      intro j' hj'
      exact hinv.scope_queue j' (by rw [hq]; exact List.mem_cons_of_mem _ hj')
    · show ∀ g' j', (s.workers.set g (.busy j)).get? g' = some (.busy j') →
        currentBid s.coord = some j'.batch
      intro g' j' hg'
      by_cases hgg : g = g'
      · subst hgg
        rw [wget_set_self s.workers g _ _ hw] at hg'
        have h1 : WorkerState.busy j = .busy j' := by injection hg'
        have h2 : j = j' := by injection h1
        subst h2
        exact hcurj
      · rw [wget_set_ne s.workers g g' _ hgg] at hg'
        exact hinv.scope_workers g' j' hg'
    · show CountEq { s with workers := s.workers.set g (.busy j), procQueue := rest }
      have h := hinv.count_eq
      unfold CountEq at h ⊢
      cases hco : s.coord with
      | idle =>
        rw [hco] at hcurj
        simp [currentBid] at hcurj
      | fanning bid js total =>
        rw [hco] at h
        show alookD s.counts bid + rest.length +
            busyCount (s.workers.set g (.busy j)) + js.length = total ∧
          alookD s.totals bid = total
        refine ⟨?_, h.2⟩
        have h1 := h.1
        omega
      | waiting bid total =>
        rw [hco] at h
        show alookD s.counts bid + rest.length +
            busyCount (s.workers.set g (.busy j)) = total ∧
          alookD s.totals bid = total
        refine ⟨?_, h.2⟩
        have h1 := h.1
        omega
  | workerEnd g j hw =>
    have hcurj : currentBid s.coord = some j.batch := hinv.scope_workers g j hw
    have hbs := busyCount_set_waiting s.workers g j hw
    have hd := hinv.coord_dequeued
    rw [hcurj] at hd
    simp only [Option.toList] at hd
    have hmemd : j.batch ∈ s.dequeued := by
      rw [hd]
      simp
    have hmemk : j.batch ∈ s.counts.map Prod.fst := by
      rw [hinv.keys_counts]
      exact List.mem_reverse.mpr hmemd
    have hfin_lt : ∀ b ∈ s.finished, b < j.batch := by
      intro b hb
      have hps : s.dequeued.Pairwise (· < ·) :=
        (List.pairwise_append.mp hinv.ids_sorted).1
      rw [hd] at hps
      rw [List.pairwise_append] at hps
      exact hps.2.2 b hb j.batch (List.mem_cons_self _ _)
    refine ⟨?_, ?_, hinv.scope_fanning, ?_, ?_, ?_, hinv.keys_totals,
      hinv.ids_sorted, hinv.ids_lt_queue, hinv.ids_lt_dequeued, ?_⟩
    · show ∀ j' ∈ s.procQueue, currentBid s.coord = some j'.batch
      exact hinv.scope_queue
    · show ∀ g' j', (s.workers.set g .waiting).get? g' = some (.busy j') →
        currentBid s.coord = some j'.batch
      intro g' j' hg'
      by_cases hgg : g = g'
      · subst hgg
        rw [wget_set_self s.workers g _ _ hw] at hg'
        have h1 : WorkerState.waiting = .busy j' := by injection hg'
        cases h1
      · rw [wget_set_ne s.workers g g' _ hgg] at hg'
        exact hinv.scope_workers g' j' hg'
    · show s.dequeued = s.finished ++ (currentBid s.coord).toList
      exact hinv.coord_dequeued
    · show ∀ b ∈ s.finished,
        alookD (abump s.counts j.batch) b = alookD s.totals b
      intro b hb
      have hbne : b ≠ j.batch := by
        have := hfin_lt b hb
        omega
      rw [alookD_abump_ne s.counts j.batch b hbne]
      exact hinv.finished_done b hb
    · show (abump s.counts j.batch).map Prod.fst = s.dequeued.reverse
      rw [abump_map_fst]
      exact hinv.keys_counts
    · show CountEq
        { s with workers := s.workers.set g WorkerState.waiting,
                 counts := abump s.counts j.batch }
      have h := hinv.count_eq
      unfold CountEq at h ⊢
      cases hco : s.coord with
      | idle =>
        rw [hco] at hcurj
        simp [currentBid] at hcurj
      | fanning bid js total =>
        rw [hco] at h hcurj
        simp only [currentBid, Option.some.injEq] at hcurj
        subst hcurj
        show alookD (abump s.counts j.batch) j.batch + s.procQueue.length +
            busyCount (s.workers.set g .waiting) + js.length = total ∧
          alookD s.totals j.batch = total
        refine ⟨?_, h.2⟩
        rw [alookD_abump_mem s.counts j.batch hmemk]
        have h1 := h.1
        omega
      | waiting bid total =>
        rw [hco] at h hcurj
        simp only [currentBid, Option.some.injEq] at hcurj
        subst hcurj
        show alookD (abump s.counts j.batch) j.batch + s.procQueue.length +
            busyCount (s.workers.set g .waiting) = total ∧
          alookD s.totals j.batch = total
        refine ⟨?_, h.2⟩
        rw [alookD_abump_mem s.counts j.batch hmemk]
        have h1 := h.1
        omega
  | endpointBegin =>
    exact ⟨hinv.scope_queue, hinv.scope_workers, hinv.scope_fanning,
      hinv.coord_dequeued, hinv.finished_done, hinv.keys_counts,
      hinv.keys_totals, hinv.ids_sorted, hinv.ids_lt_queue,
      hinv.ids_lt_dequeued, hinv.count_eq⟩
  | endpointEnd g pre post h =>
    exact ⟨hinv.scope_queue, hinv.scope_workers, hinv.scope_fanning,
      hinv.coord_dequeued, hinv.finished_done, hinv.keys_counts,
      hinv.keys_totals, hinv.ids_sorted, hinv.ids_lt_queue,
      hinv.ids_lt_dequeued, hinv.count_eq⟩

theorem PInv_reach {K : Nat} {s : PState} (h : PReach K s) : PInv s := by
  induction h with
  | base => exact PInv_init K
  | step _ hst ih => exact PInv_step ih hst

/-- C4: in every reachable pipeline state, any job sitting on the processing
queue or held by a worker belongs to the coordinator's current batch, and
every batch submitted earlier (smaller id, already dequeued or still queued)
is fully terminal — its completion count equals its total; moreover the
websocket handler's batch submission step is enabled in every state, so
uploads are accepted while the current batch is processing. -/
theorem C4_batch_sequencing (K : Nat) (s : PState) (h : PReach K s) :
    (∀ j, (j ∈ s.procQueue ∨ ∃ g, s.workers.get? g = some (.busy j)) →
      ∀ A, (A ∈ s.dequeued ∨ A ∈ s.batchQueue.map Prod.fst) → A < j.batch →
        A ∈ s.finished ∧ alookD s.counts A = alookD s.totals A) ∧
    (∀ n, PStep K s (submitSucc s n)) := by
  have hinv := PInv_reach h
  constructor
  · intro j hj A hA hAlt
    have hcur : currentBid s.coord = some j.batch := by
      rcases hj with hq | ⟨g, hg⟩
      · exact hinv.scope_queue j hq
      · exact hinv.scope_workers g j hg
    have hd := hinv.coord_dequeued
    rw [hcur] at hd
    simp only [Option.toList] at hd
    rcases hA with hdq | hqid
    · rw [hd] at hdq
      rcases List.mem_append.mp hdq with hf | hb
      · exact ⟨hf, hinv.finished_done A hf⟩
      · have : A = j.batch := by simpa using hb
        omega
    · have hmemd : j.batch ∈ s.dequeued := by
        rw [hd]
        simp
      have := (List.pairwise_append.mp hinv.ids_sorted).2.2 j.batch hmemd A hqid
      omega
  · intro n
    exact PStep.submit s n

/-- Witness for C4: from the initial 1-device state, the submit step is
enabled (a batch of 3 can be queued at any time). -/
theorem C4_batch_sequencing_witness :
    PStep 1 (initPState 1) (submitSucc (initPState 1) 3) :=
  (C4_batch_sequencing 1 (initPState 1) PReach.base).2 3

/-- C5 counterexample: a reachable state (1 device) in which two
processing-engine dispatch windows are simultaneously open on device 0 — one
held by the queue worker, one by a `/api/upload` request, which acquires no
per-device permit.  This refutes cross-path mutual exclusion. -/
theorem C5_counterexample_two_dispatches_overlap :
    PReach 1 c5state ∧ 2 ≤ activeOn c5state 0 := by
  constructor
  · have h0 : PReach 1 (initPState 1) := PReach.base
    have h1 := PReach.step h0 (PStep.submit (initPState 1) 1)
    have h2 := PReach.step h1 (PStep.coordDequeue _ 0 1 [] rfl rfl)
    have h3 := PReach.step h2 (PStep.coordEnqueue _ 0 ⟨0, 0⟩ [] 1 (by decide))
    have h4 := PReach.step h3 (PStep.workerBegin _ 0 ⟨0, 0⟩ [] (by decide) (by decide))
    have h5 := PReach.step h4 (PStep.endpointBegin _)
    exact h5
  · decide

/-- C5 (amended): within the WebSocket queue-worker path the exclusion does
hold — in any reachable state with no `/api/upload` call in flight, at most
one dispatch window is open per device, because each device is drained by a
single sequential worker. -/
theorem C5_worker_path_exclusion (K : Nat) (s : PState) (_h : PReach K s)
    (hend : s.endpointCalls = []) (g : Nat) : activeOn s g ≤ 1 := by
  have hw : workerActive s.workers g ≤ 1 := by
    unfold workerActive
    cases hget : s.workers.get? g with
    | none => simp
    | some w => cases w <;> simp
  unfold activeOn
  rw [hend]
  simpa using hw

/-- Witness for C5's amended theorem at the initial 1-device state. -/
theorem C5_worker_path_exclusion_witness : activeOn (initPState 1) 0 ≤ 1 :=
  C5_worker_path_exclusion 1 (initPState 1) PReach.base rfl 0

end ImageRemoveBg
